import Mathlib

/-!
httpglobe: the diff engine, the fan-out checker and the worker decision.

A shallow embedding of `pkg/checker/checker.go`, `pkg/proxy/proxy.go` and the
checking pipeline of `main.go`.

Modelling conventions.

* A Go `string` is a Lean `String`; only equality and concatenation are used.
* A Go `int` is a Lean `Int`; arithmetic that Go performs on `int` is wrapped
  to the 64-bit two's complement range by `wrapInt` (a 64-bit target).
* A `*Response` is an address (`Addr`) into a heap (`Heap`) that holds a
  `Response` at every address: the slices handled here never hold a nil
  pointer (`Check` always returns a non-nil pointer). Comparison of two
  pointers is comparison of their addresses.
* A `map[string]string` is the list of its present keys together with the
  value stored under each key (`StringMap`).
* The network is an oracle (`Transport`): for each fetch it says whether the
  request fails (with which error) or succeeds (with which status and body).
-/

namespace HttpGlobe

/-! ## Data model (`pkg/checker/checker.go`, `main.go`) -/

/-- Response of `pkg/checker`: one fetch outcome for one country. -/
structure Response where
  StatusCode : Int
  Title : String
  ContentLength : Int
  Country : String
  Error : String
deriving DecidableEq

/-- The address of a `Response` value: a non-nil `*Response`. -/
abbrev Addr := Nat

/-- The memory that `*Response` pointers point into. -/
abbrev Heap := Addr → Response

/-- Result of `main.go`: one full check of one URL. -/
structure Result where
  URL : String
  Responses : List Addr
  HasDiff : Bool
deriving DecidableEq

/-! ## Machine integers -/

/-- Reduction of a mathematical integer to the value a 64-bit Go `int` holds. -/
def wrapInt (n : Int) : Int :=
  (n + 9223372036854775808) % 18446744073709551616 - 9223372036854775808

/-- Function `abs` of `checker.go`. -/
def abs (n : Int) : Int :=
  if n < 0 then wrapInt (-n) else n

/-! ## The significance test: `CompareResponses` -/

/-- The closure `isContentLengthSignificant` inside `CompareResponses`.
Go's `/` on `int` truncates toward zero (`Int.tdiv`). -/
def isContentLengthSignificant (length1 length2 : Int) : Bool :=
  if length1 = 0 then
    decide (length2 ≠ 0)
  else
    let diff := wrapInt (Int.tdiv (wrapInt (100 * abs (wrapInt (length1 - length2)))) length1)
    decide (diff > 20)

/-- The first loop of `CompareResponses`: the first pointer whose response has
an empty error, `none` (Go's `nil`) when there is none. -/
def findReference (h : Heap) : List Addr → Option Addr
  | [] => none
  | resp :: rest =>
    if (h resp).Error = "" then some resp else findReference h rest

/-- The second loop of `CompareResponses`: `true` as soon as a response other
than the reference (by pointer) differs from it, `false` when the loop ends. -/
def compareLoop (h : Heap) (reference : Addr) : List Addr → Bool
  | [] => false
  | resp :: rest =>
    if resp = reference then
      compareLoop h reference rest
    else if (h resp).Error ≠ (h reference).Error then
      true
    else if (h resp).StatusCode ≠ (h reference).StatusCode then
      true
    else if (h resp).Title ≠ (h reference).Title then
      true
    else if (decide ((h resp).ContentLength = 0) != decide ((h reference).ContentLength = 0)) ||
        (decide ((h resp).ContentLength ≠ 0) &&
          isContentLengthSignificant (h reference).ContentLength (h resp).ContentLength) then
      true
    else
      compareLoop h reference rest

/-- Function `CompareResponses` of `checker.go`. -/
def CompareResponses (h : Heap) (responses : List Addr) : Bool :=
  if responses.length ≤ 1 then
    false
  else
    match responses with
    | [] => false
    | first :: _ =>
      let reference :=
        match findReference h responses with
        | some resp => resp
        | none => first
      compareLoop h reference responses

/-! ## Cross-run matching: `buildPattern`, `ResponsePatternsMatch` -/

/-- Rendering of a Go `int` by the verb `%d`: decimal digits, with a leading
minus sign for a negative number. -/
def fmtInt (n : Int) : String :=
  toString n

/-- Function `buildPattern` of `checker.go`. -/
def buildPattern (resp : Response) : String :=
  if resp.Error ≠ "" then
    "error:" ++ resp.Error
  else
    fmtInt resp.StatusCode ++ ":" ++ resp.Title ++ ":" ++ fmtInt resp.ContentLength

/-- A Go `map[string]string`: the keys present and the value under each. -/
structure StringMap where
  keys : List String
  val : String → String

/-- The map made by `make(map[string]string)`. -/
def StringMap.empty : StringMap :=
  ⟨[], fun _ => ""⟩

/-- The assignment `m[k] = v`. -/
def StringMap.set (m : StringMap) (k v : String) : StringMap :=
  ⟨if k ∈ m.keys then m.keys else m.keys ++ [k], fun x => if x = k then v else m.val x⟩

/-- The read `m[k]`: the zero value `""` when the key is absent. -/
def StringMap.get (m : StringMap) (k : String) : String :=
  if k ∈ m.keys then m.val k else ""

/-- The loops `for _, resp := range responses { pattern[resp.Country] = buildPattern(resp) }`. -/
def patternMap (h : Heap) (responses : List Addr) : StringMap :=
  responses.foldl (fun m resp => m.set (h resp).Country (buildPattern (h resp))) StringMap.empty

/-- The entries `(key, value)` that `for country, pat := range m` visits. -/
def StringMap.entries (m : StringMap) : List (String × String) :=
  m.keys.map (fun k => (k, m.val k))

/-- Function `ResponsePatternsMatch` of `checker.go`. The last loop ranges over
the entries of `pattern1` (in an order Go does not fix) and returns `false` at
the first entry that `pattern2` does not repeat; the result is the same for
every order. -/
def ResponsePatternsMatch (h : Heap) (responses1 responses2 : List Addr) : Bool :=
  if responses1.length ≠ responses2.length then
    false
  else
    let pattern1 := patternMap h responses1
    let pattern2 := patternMap h responses2
    pattern1.entries.all (fun e => !decide (pattern2.get e.1 ≠ e.2))

/-! ## The fan-out checker: `Proxy.URL`, `Check`, `checkURL` -/

/-- Proxy of `pkg/proxy`. -/
structure Proxy where
  Host : String
  Port : String
  Username : String
  Password : String

/-- Method `URL` of `pkg/proxy/proxy.go`; its error result is always `nil`. -/
def Proxy.URL (p : Proxy) (countryCode : String) : Except String String :=
  let username :=
    if countryCode ≠ "" then p.Username ++ "-country-" ++ countryCode else p.Username
  Except.ok ("http://" ++ username ++ ":" ++ p.Password ++ "@" ++ p.Host ++ ":" ++ p.Port)

/-- What the HTTP client hands back on success: the status and the body. -/
structure HTTPResponse where
  Status : Int
  Body : String

/-- The behaviour of `client.Do` for one fetch, given the URL and the proxy
URL: an error message or a response. -/
abbrev Transport := String → String → Except String HTTPResponse

/-- Function `Check` of `checker.go`, as the value of the `Response` it
returns. The HTTP client is the oracle `client`; `extractTitle` is taken as a
parameter (no property below depends on how a title is cut out of a body). -/
def Check (client : Transport) (extractTitle : String → Except String String)
    (url : String) (proxy : Proxy) (country : String) : Response :=
  let resp : Response := ⟨0, "", 0, country, ""⟩
  match proxy.URL country with
  | Except.error err => { resp with Error := "creating proxy URL: " ++ err }
  | Except.ok proxyURL =>
    match client url proxyURL with
    | Except.error err => { resp with Error := "making request: " ++ err }
    | Except.ok response =>
      let resp := { resp with ContentLength := (response.Body.utf8ByteSize : Int) }
      let resp := { resp with StatusCode := response.Status }
      match extractTitle response.Body with
      | Except.ok title => { resp with Title := title }
      | Except.error _ => resp

/-- The memory together with the next free address, the one that the next
allocation returns. -/
structure Mem where
  heap : Heap
  next : Nat

/-- Allocation of a new `Response` (the `&Response{...}` of `Check`). -/
def Mem.alloc (m : Mem) (r : Response) : Addr × Mem :=
  (m.next, ⟨fun a => if a = m.next then r else m.heap a, m.next + 1⟩)

/-- The fetches that `checkURL` launches, one per country, from slot `index`
on: the fetch for slot `i` stores its pointer in `responses[i]`. The fetches
run concurrently in the source and `wg.Wait()` joins them all; each writes its
own slot only, so the slice after the join is the one computed here. The
oracle `net i` is the behaviour of the network for the fetch of slot `i`. -/
def launchChecks (net : Nat → Transport) (extractTitle : String → Except String String)
    (url : String) (proxy : Proxy) : Nat → List String → Mem → List Addr × Mem
  | _, [], m => ([], m)
  | index, country :: rest, m =>
    let (p, m1) := m.alloc (Check (net index) extractTitle url proxy country)
    let (ps, m2) := launchChecks net extractTitle url proxy (index + 1) rest m1
    (p :: ps, m2)

/-- Function `checkURL` of `main.go`. -/
def checkURL (net : Nat → Transport) (extractTitle : String → Except String String)
    (m : Mem) (url : String) (proxy : Proxy) (countries : List String) : Result × Mem :=
  let (responses, m1) := launchChecks net extractTitle url proxy 0 countries m
  (⟨url, responses, CompareResponses m1.heap responses⟩, m1)

/-! ## The worker and the collector (`main`) -/

/-- What one pass of the worker loop does for one URL: the values it sends on
`resultsChan` (`none` is Go's `nil`) and the number of `bar.Add(1)` calls. -/
structure WorkerOutput where
  sent : List (Option Result)
  advanced : Nat
deriving DecidableEq

/-- The body of the worker loop of `main`, given the result of the first
`checkURL` and the result the verification `checkURL` gives (the source runs
the latter only when it reaches `if *verify`). The heap `h` is the memory at
the call of `ResponsePatternsMatch`. -/
def workerBody (h : Heap) (verify : Bool) (result verifyResult : Result) : WorkerOutput :=
  if !result.HasDiff then
    ⟨[], 1⟩
  else if verify then
    if !verifyResult.HasDiff then
      ⟨[none], 1⟩
    else if !ResponsePatternsMatch h result.Responses verifyResult.Responses then
      ⟨[none], 1⟩
    else
      ⟨[some result], 1⟩
  else
    ⟨[some result], 1⟩

/-- One pass of the worker loop of `main` with its calls of `checkURL`: `net1`
is the network during the first check and `net2` during the verification
check. -/
def processURL (verify : Bool) (net1 net2 : Nat → Transport)
    (extractTitle : String → Except String String)
    (m : Mem) (url : String) (proxy : Proxy) (countries : List String) : WorkerOutput × Mem :=
  let (result, m1) := checkURL net1 extractTitle m url proxy countries
  if !result.HasDiff then
    (⟨[], 1⟩, m1)
  else if verify then
    let (verifyResult, m2) := checkURL net2 extractTitle m1 url proxy countries
    if !verifyResult.HasDiff then
      (⟨[none], 1⟩, m2)
    else if !ResponsePatternsMatch m2.heap result.Responses verifyResult.Responses then
      (⟨[none], 1⟩, m2)
    else
      (⟨[some result], 1⟩, m2)
  else
    (⟨[some result], 1⟩, m1)

/-- The collector goroutine of `main`: the findings accumulated in
`results.Results` after the values `msgs` were received, starting from `acc`. -/
def collector (acc : List Result) : List (Option Result) → List Result
  | [] => acc
  | none :: msgs => collector acc msgs
  | some result :: msgs => collector (acc ++ [result]) msgs

/-! ## The specification's significance test, in the specification's words -/

/-- Reference selection of the specification: the first outcome with an empty
error; the first outcome when every outcome has an error. -/
def specReference (outcomes : List Response) : Option Response :=
  match outcomes.find? (fun o => decide (o.Error = "")) with
  | some r => some r
  | none => outcomes.head?

/-- The four ways of the specification in which a candidate `c` differs
significantly from the reference `r`; the arithmetic is that of the
integers, with integer division. -/
def specSignificant (r c : Response) : Prop :=
  c.Error ≠ r.Error ∨ c.StatusCode ≠ r.StatusCode ∨ c.Title ≠ r.Title ∨
  ((c.ContentLength = 0 ∧ r.ContentLength ≠ 0) ∨ (c.ContentLength ≠ 0 ∧ r.ContentLength = 0)) ∨
  (c.ContentLength ≠ 0 ∧ r.ContentLength ≠ 0 ∧
    100 * |r.ContentLength - c.ContentLength| / r.ContentLength > 20)

instance (r c : Response) : Decidable (specSignificant r c) := by
  unfold specSignificant
  infer_instance

/-- The value of `hasDifference` according to the specification. -/
def specHasDifference (outcomes : List Response) : Bool :=
  if outcomes.length < 2 then
    false
  else
    match specReference outcomes with
    | none => false
    | some r => outcomes.any (fun c => decide (specSignificant r c))

/-- The specification's condition for two outcome sets to pattern-match: the
same set of countries and, for every country, identical patterns. -/
def specPatternsMatch (A B : List Response) : Prop :=
  (∀ country, country ∈ A.map (fun o => o.Country) ↔ country ∈ B.map (fun o => o.Country)) ∧
  ∀ a ∈ A, ∀ b ∈ B, a.Country = b.Country → buildPattern a = buildPattern b

/-- The largest content length for which `100 * length` fits a 64-bit `int`. -/
def maxLength : Int := 92233720368547758

/-! ## Auxiliary definitions for the proofs -/

/-- The four tests of the second loop of `CompareResponses` on a pair of values. -/
def pairDiffers (r c : Response) : Bool :=
  decide (c.Error ≠ r.Error) || decide (c.StatusCode ≠ r.StatusCode) ||
  decide (c.Title ≠ r.Title) ||
  ((decide (c.ContentLength = 0) != decide (r.ContentLength = 0)) ||
    (decide (c.ContentLength ≠ 0) && isContentLengthSignificant r.ContentLength c.ContentLength))

/-- `CompareResponses` as a function of the pointed-to values alone. -/
def compareValues (vs : List Response) : Bool :=
  if vs.length ≤ 1 then false
  else
    match vs with
    | [] => false
    | first :: _ =>
      let r := (vs.find? (fun o => decide (o.Error = ""))).getD first
      vs.any (pairDiffers r)

/-- The pattern map built from a map `m` by the assignments for the values `vs`. -/
def patternsFrom (m : StringMap) (vs : List Response) : StringMap :=
  vs.foldl (fun m v => m.set v.Country (buildPattern v)) m

/-- The number that a list of decimal digit characters denotes, read after the
digits already accumulated in `init`. -/
def decimalValue (init : Nat) (cs : List Char) : Nat :=
  cs.foldl (fun acc c => 10 * acc + (c.toNat - 48)) init

/-! ## Concrete heaps and results used in the examples -/

/-- The heap of the examples for the significance test. -/
def heapLengths : Heap := fun a =>
  if a = 0 then ⟨200, "Home", 1000, "us", ""⟩
  else if a = 1 then ⟨200, "Home", 1210, "de", ""⟩
  else if a = 2 then ⟨200, "Home", 1150, "de", ""⟩
  else if a = 3 then ⟨200, "Home", 1, "us", ""⟩
  else ⟨200, "Home", 92233720368547760, "de", ""⟩

/-- The heap of the example for C6: the first country fails, two succeed. -/
def heapBlocked : Heap := fun a =>
  if a = 0 then ⟨0, "", 0, "cn", "making request: timeout"⟩
  else if a = 1 then ⟨200, "Home", 1000, "us", ""⟩
  else ⟨200, "Home", 1000, "de", ""⟩

/-- The heap of the examples with duplicate country codes. -/
def heapCountries : Heap := fun a =>
  if a = 0 then ⟨200, "Home", 1000, "us", ""⟩
  else if a = 1 then ⟨200, "Home", 1000, "us", ""⟩
  else if a = 2 then ⟨200, "Home", 1000, "us", ""⟩
  else if a = 3 then ⟨403, "", 50, "de", ""⟩
  else if a = 4 then ⟨200, "Home", 1001, "us", ""⟩
  else if a = 5 then ⟨200, "Home", 5, "us", ""⟩
  else ⟨200, "Home", 5, "us", ""⟩

/-- The results of the examples for the worker: a first run with a difference,
a verification run that repeats it, and one that shows no difference. -/
def firstRun : Result := ⟨"https://example.org", [1, 3], true⟩

/-- The verification run that repeats the outcomes of `firstRun`. -/
def sameRun : Result := ⟨"https://example.org", [2, 3], true⟩

/-- The verification run without a difference. -/
def quietRun : Result := ⟨"https://example.org", [0, 1], false⟩

/-! ## Theorems -/

/-! ## `CompareResponses` depends on the pointed-to values only -/

theorem wrapInt_of_range (n : Int) (h1 : -9223372036854775808 ≤ n)
    (h2 : n < 9223372036854775808) : wrapInt n = n := by
  unfold wrapInt
  omega

theorem abs_zero : abs 0 = 0 := by
  simp [abs]

theorem isContentLengthSignificant_self (l : Int) : isContentLengthSignificant l l = false := by
  unfold isContentLengthSignificant
  by_cases hl : l = 0
  · simp [hl]
  · have hw : wrapInt 0 = 0 := by decide
    simp [hl, sub_self, hw, abs_zero]

theorem pairDiffers_self (r : Response) : pairDiffers r r = false := by
  simp [pairDiffers, isContentLengthSignificant_self]

theorem compareLoop_cons (h : Heap) (r p : Addr) (ps : List Addr) :
    compareLoop h r (p :: ps) =
      if p = r then compareLoop h r ps else (pairDiffers (h r) (h p) || compareLoop h r ps) := by
  by_cases hp : p = r
  · simp [compareLoop, hp]
  · simp only [compareLoop, hp, if_false, pairDiffers]
    generalize ((decide ((h p).ContentLength = 0) != decide ((h r).ContentLength = 0)) ||
        (decide ((h p).ContentLength ≠ 0) &&
          isContentLengthSignificant (h r).ContentLength (h p).ContentLength)) = X
    by_cases h1 : (h p).Error = (h r).Error <;>
    by_cases h2 : (h p).StatusCode = (h r).StatusCode <;>
    by_cases h3 : (h p).Title = (h r).Title <;>
    cases X <;> simp [h1, h2, h3]

theorem compareLoop_eq_values (h : Heap) (r : Addr) (ps : List Addr) :
    compareLoop h r ps = (ps.map h).any (pairDiffers (h r)) := by
  induction ps with
  | nil => rfl
  | cons p ps ih =>
    rw [compareLoop_cons, ih, List.map_cons, List.any_cons]
    by_cases hp : p = r
    · simp [hp, pairDiffers_self]
    · simp [hp]

theorem findReference_map (h : Heap) (ps : List Addr) :
    (findReference h ps).map h = (ps.map h).find? (fun o => decide (o.Error = "")) := by
  induction ps with
  | nil => rfl
  | cons p ps ih =>
    by_cases hp : (h p).Error = ""
    · simp [findReference, hp]
    · simp [findReference, hp, ih]

theorem CompareResponses_eq_values (h : Heap) (ps : List Addr) :
    CompareResponses h ps = compareValues (ps.map h) := by
  unfold CompareResponses compareValues
  cases ps with
  | nil => simp
  | cons p ps =>
    by_cases hlen : (p :: ps).length ≤ 1
    · have hlen2 : (List.map h (p :: ps)).length ≤ 1 := by simpa using hlen
      rw [if_pos hlen, if_pos hlen2]
    · have hlen2 : ¬ (List.map h (p :: ps)).length ≤ 1 := by simpa using hlen
      rw [if_neg hlen, if_neg hlen2]
      have hf := findReference_map h (p :: ps)
      simp only [List.map_cons] at hf ⊢
      rw [← hf, compareLoop_eq_values]
      cases hr : findReference h (p :: ps) <;> simp

theorem isContentLengthSignificant_bounded (l1 l2 : Int) (h1 : 0 < l1) (h1b : l1 ≤ maxLength)
    (h2 : 0 ≤ l2) (h2b : l2 ≤ maxLength) :
    isContentLengthSignificant l1 l2 = decide (100 * |l1 - l2| / l1 > 20) := by
  unfold maxLength at h1b h2b
  have hne : l1 ≠ 0 := by omega
  have habs : abs (wrapInt (l1 - l2)) = |l1 - l2| := by
    rw [wrapInt_of_range _ (by omega) (by omega)]
    unfold abs
    by_cases hlt : l1 - l2 < 0
    · rw [if_pos hlt, wrapInt_of_range _ (by omega) (by omega), abs_of_neg hlt]
    · rw [if_neg hlt, abs_of_nonneg (by omega)]
  have hA0 : 0 ≤ |l1 - l2| := abs_nonneg _
  have hA1 : |l1 - l2| ≤ 92233720368547758 := by
    rw [abs_le]; constructor <;> omega
  have hq0 : 0 ≤ 100 * |l1 - l2| / l1 := Int.ediv_nonneg (by omega) (by omega)
  have hq1 : 100 * |l1 - l2| / l1 ≤ 100 * |l1 - l2| :=
    Int.ediv_le_self _ (by omega)
  unfold isContentLengthSignificant
  rw [if_neg hne]
  simp only [habs]
  rw [wrapInt_of_range (100 * |l1 - l2|) (by omega) (by omega),
    Int.tdiv_eq_ediv (by omega) (by omega), wrapInt_of_range _ (by omega) (by omega)]

theorem pairDiffers_iff_spec (r c : Response) (hr0 : 0 ≤ r.ContentLength)
    (hr1 : r.ContentLength ≤ maxLength) (hc0 : 0 ≤ c.ContentLength)
    (hc1 : c.ContentLength ≤ maxLength) :
    pairDiffers r c = decide (specSignificant r c) := by
  unfold pairDiffers specSignificant
  by_cases hrz : r.ContentLength = 0
  · by_cases hcz : c.ContentLength = 0
    · simp [hrz, hcz, Bool.or_assoc]
    · simp [hrz, hcz, isContentLengthSignificant]
  · by_cases hcz : c.ContentLength = 0
    · simp [hrz, hcz]
    · rw [isContentLengthSignificant_bounded _ _ (by omega) hr1 hc0 hc1]
      simp [hrz, hcz, Bool.or_assoc]

theorem any_congr_mem {α : Type} (l : List α) (p q : α → Bool)
    (hpq : ∀ x ∈ l, p x = q x) : l.any p = l.any q := by
  induction l with
  | nil => rfl
  | cons x xs ih =>
    rw [List.any_cons, List.any_cons, hpq x (List.mem_cons_self _ _),
      ih (fun y hy => hpq y (List.mem_cons_of_mem _ hy))]

theorem compareValues_eq_spec (vs : List Response)
    (hb : ∀ v ∈ vs, 0 ≤ v.ContentLength ∧ v.ContentLength ≤ maxLength) :
    compareValues vs = specHasDifference vs := by
  unfold compareValues specHasDifference specReference
  cases vs with
  | nil => simp
  | cons v vs =>
    by_cases hlen : (v :: vs).length ≤ 1
    · have hlen2 : (v :: vs).length < 2 := by omega
      rw [if_pos hlen, if_pos hlen2]
    · have hlen2 : ¬ (v :: vs).length < 2 := by omega
      rw [if_neg hlen, if_neg hlen2]
      have key : ∀ r ∈ (v :: vs), (v :: vs).any (pairDiffers r) =
          (v :: vs).any (fun c => decide (specSignificant r c)) := by
        intro r hr
        apply any_congr_mem
        intro c hc
        exact pairDiffers_iff_spec r c (hb r hr).1 (hb r hr).2 (hb c hc).1 (hb c hc).2
      cases hf : List.find? (fun o => decide (o.Error = "")) (v :: vs) with
      | none =>
        simp only [Option.getD_none, List.head?_cons]
        exact key v (List.mem_cons_self _ _)
      | some r =>
        simp only [Option.getD_some]
        exact key r (List.mem_of_find?_eq_some hf)

/-! ## C1, C2, C10: the significance test -/

/-- C1, as stated, fails: with content lengths 1 and 92233720368547760 (both
non-negative) the product `100 * 92233720368547759` exceeds the 64-bit range,
`CompareResponses` returns `false`, and the specification's test is `true`. -/
theorem C1_counterexample :
    (∀ p ∈ [3, 4], 0 ≤ (heapLengths p).ContentLength) ∧
    CompareResponses heapLengths [3, 4] = false ∧
    specHasDifference ([3, 4].map heapLengths) = true := by
  decide

/-- C1 (amended): for every list of outcomes whose content lengths lie between
0 and 92233720368547758, `CompareResponses` equals the specification's
significance test applied to the outcomes. -/
theorem C1_CompareResponses_refines_spec (h : Heap) (responses : List Addr)
    (hb : ∀ p ∈ responses, 0 ≤ (h p).ContentLength ∧ (h p).ContentLength ≤ maxLength) :
    CompareResponses h responses = specHasDifference (responses.map h) := by
  rw [CompareResponses_eq_values]
  apply compareValues_eq_spec
  intro v hv
  obtain ⟨p, hp, rfl⟩ := List.mem_map.1 hv
  exact hb p hp

/-- C1 (amended) applied to the three outcomes with content lengths 1000, 1210 and 1150. -/
theorem C1_witness :
    (∀ p ∈ [0, 1, 2], 0 ≤ (heapLengths p).ContentLength ∧
      (heapLengths p).ContentLength ≤ maxLength) ∧
    CompareResponses heapLengths [0, 1, 2] = specHasDifference ([0, 1, 2].map heapLengths) :=
  ⟨by decide, C1_CompareResponses_refines_spec heapLengths [0, 1, 2] (by decide)⟩

/-- C2, as stated, fails: reference length 1 and candidate length
92233720368547760, same error, status code and title; `CompareResponses`
returns `false` although `100 * |1 - 92233720368547760| / 1 > 20`. -/
theorem C2_counterexample :
    (heapLengths 4).Error = (heapLengths 3).Error ∧
    (heapLengths 4).StatusCode = (heapLengths 3).StatusCode ∧
    (heapLengths 4).Title = (heapLengths 3).Title ∧
    0 < (heapLengths 3).ContentLength ∧ 0 ≤ (heapLengths 4).ContentLength ∧
    CompareResponses heapLengths [3, 4] = false ∧
    100 * |(heapLengths 3).ContentLength - (heapLengths 4).ContentLength| /
      (heapLengths 3).ContentLength > 20 := by
  decide

/-- C2 (amended): for a pair `[reference, candidate]` with the same error,
status code and title, reference length in `1 .. 92233720368547758` and
candidate length in `0 .. 92233720368547758`, `CompareResponses` is `true`
exactly when `100 * |reference - candidate| / reference > 20` in integer
division, whichever of the two is longer. -/
theorem C2_threshold_iff (h : Heap) (reference candidate : Addr)
    (he : (h candidate).Error = (h reference).Error)
    (hs : (h candidate).StatusCode = (h reference).StatusCode)
    (ht : (h candidate).Title = (h reference).Title)
    (hr0 : 0 < (h reference).ContentLength) (hr1 : (h reference).ContentLength ≤ maxLength)
    (hc0 : 0 ≤ (h candidate).ContentLength) (hc1 : (h candidate).ContentLength ≤ maxLength) :
    CompareResponses h [reference, candidate] = true ↔
      100 * |(h reference).ContentLength - (h candidate).ContentLength| /
        (h reference).ContentLength > 20 := by
  have hrne : (h reference).ContentLength ≠ 0 := by omega
  have hfind : (List.find? (fun o => decide (o.Error = "")) [h reference, h candidate]).getD
      (h reference) = h reference := by
    by_cases hre : (h reference).Error = ""
    · simp [List.find?, hre]
    · simp [List.find?, hre, he]
  rw [CompareResponses_eq_values]
  simp only [compareValues, List.map_cons, List.map_nil, List.length_cons, List.length_nil]
  rw [if_neg (by omega), hfind]
  simp only [List.any_cons, List.any_nil, pairDiffers_self, Bool.false_or, Bool.or_false]
  unfold pairDiffers
  by_cases hcz : (h candidate).ContentLength = 0
  · have : |(h reference).ContentLength| = (h reference).ContentLength := abs_of_pos hr0
    have hq : 100 * (h reference).ContentLength / (h reference).ContentLength = 100 :=
      Int.mul_ediv_cancel _ hrne
    simp [he, hs, ht, hcz, hrne, this, hq]
  · rw [isContentLengthSignificant_bounded _ _ hr0 hr1 hc0 hc1]
    simp [he, hs, ht, hcz, hrne]

/-- C2 (amended) applied to the lengths 1000 and 1150, which give `false`, and
to the lengths 1000 and 1210, which give `true`. -/
theorem C2_witness :
    ((heapLengths 2).Error = (heapLengths 0).Error ∧
      (heapLengths 2).StatusCode = (heapLengths 0).StatusCode ∧
      (heapLengths 2).Title = (heapLengths 0).Title ∧
      0 < (heapLengths 0).ContentLength ∧ (heapLengths 0).ContentLength ≤ maxLength ∧
      0 ≤ (heapLengths 2).ContentLength ∧ (heapLengths 2).ContentLength ≤ maxLength) ∧
    (CompareResponses heapLengths [0, 2] = true ↔
      100 * |(heapLengths 0).ContentLength - (heapLengths 2).ContentLength| /
        (heapLengths 0).ContentLength > 20) ∧
    (CompareResponses heapLengths [0, 1] = true ↔
      100 * |(heapLengths 0).ContentLength - (heapLengths 1).ContentLength| /
        (heapLengths 0).ContentLength > 20) ∧
    CompareResponses heapLengths [0, 2] = false ∧
    CompareResponses heapLengths [0, 1] = true :=
  ⟨by decide,
   C2_threshold_iff heapLengths 0 2 (by decide) (by decide) (by decide) (by decide)
     (by decide) (by decide) (by decide),
   C2_threshold_iff heapLengths 0 1 (by decide) (by decide) (by decide) (by decide)
     (by decide) (by decide) (by decide),
   by decide, by decide⟩

/-- C10: `CompareResponses` depends on the order of the outcomes: there are two
error-free outcomes with the same status code and title (content lengths 1000
and 1210) for which the result with one first is `true` and with the other
first is `false`. -/
theorem C10_order_dependence :
    ∃ (h : Heap) (a b : Addr),
      (h a).Error = "" ∧ (h b).Error = "" ∧
      (h a).StatusCode = (h b).StatusCode ∧ (h a).Title = (h b).Title ∧
      (h a).ContentLength = 1000 ∧ (h b).ContentLength = 1210 ∧
      CompareResponses h [a, b] = true ∧ CompareResponses h [b, a] = false ∧
      CompareResponses h [a, b] ≠ CompareResponses h [b, a] :=
  ⟨heapLengths, 0, 1, by decide⟩

/-! ## C6: a fetch error in exactly one country -/

theorem compareValues_of_single_error (vs : List Response) (e o : Response)
    (hlen : 2 ≤ vs.length) (he : e ∈ vs) (ho : o ∈ vs) (hee : e.Error ≠ "")
    (hoe : o.Error = "") : compareValues vs = true := by
  unfold compareValues
  cases vs with
  | nil => simp at hlen
  | cons v vs =>
    rw [if_neg (by omega)]
    cases hf : List.find? (fun x => decide (x.Error = "")) (v :: vs) with
    | none =>
      have := List.find?_eq_none.1 hf o ho
      simp [hoe] at this
    | some r =>
      have hr : r.Error = "" := by simpa using List.find?_some hf
      simp only [Option.getD_some, List.any_eq_true]
      refine ⟨e, he, ?_⟩
      have : e.Error ≠ r.Error := by rw [hr]; exact hee
      simp [pairDiffers, this]

/-- C6: for every list of at least 2 outcomes in which exactly one outcome
(at any position, the first included) has a non-empty error and every other
outcome has an empty error, `CompareResponses` returns `true`, whatever the
status codes, titles and content lengths are. -/
theorem C6_single_error_is_difference (h : Heap) (before after : List Addr) (failing : Addr)
    (hlen : 2 ≤ (before ++ failing :: after).length)
    (hfail : (h failing).Error ≠ "")
    (hbefore : ∀ p ∈ before, (h p).Error = "")
    (hafter : ∀ p ∈ after, (h p).Error = "") :
    CompareResponses h (before ++ failing :: after) = true := by
  rw [CompareResponses_eq_values]
  have hex : ∃ o ∈ before ++ after, True := by
    cases hb : before with
    | nil =>
      cases ha : after with
      | nil => subst hb; subst ha; simp at hlen
      | cons a _ => exact ⟨a, by simp, trivial⟩
    | cons b _ => exact ⟨b, by simp, trivial⟩
  obtain ⟨o, ho, -⟩ := hex
  have hoe : (h o).Error = "" := by
    rcases List.mem_append.1 ho with hm | hm
    · exact hbefore o hm
    · exact hafter o hm
  apply compareValues_of_single_error _ (h failing) (h o)
  · simpa using hlen
  · exact List.mem_map.2 ⟨failing, by simp, rfl⟩
  · refine List.mem_map.2 ⟨o, ?_, rfl⟩
    rcases List.mem_append.1 ho with hm | hm
    · simp [hm]
    · simp [hm]
  · exact hfail
  · exact hoe

/-- C6 applied to three outcomes of which the first one failed. -/
theorem C6_witness :
    2 ≤ (([] : List Addr) ++ 0 :: [1, 2]).length ∧ (heapBlocked 0).Error ≠ "" ∧
    (∀ p ∈ [1, 2], (heapBlocked p).Error = "") ∧
    CompareResponses heapBlocked ([] ++ 0 :: [1, 2]) = true :=
  ⟨by decide, by decide, by decide,
   C6_single_error_is_difference heapBlocked [] [1, 2] 0 (by decide) (by decide)
     (by simp) (by decide)⟩

/-! ## The pattern maps of `ResponsePatternsMatch` -/

theorem patternMap_eq_patternsFrom (h : Heap) (ps : List Addr) :
    patternMap h ps = patternsFrom StringMap.empty (ps.map h) := by
  unfold patternMap patternsFrom
  rw [List.foldl_map]

theorem StringMap.mem_keys_set (m : StringMap) (k v x : String) :
    x ∈ (m.set k v).keys ↔ x ∈ m.keys ∨ x = k := by
  unfold StringMap.set
  by_cases hk : k ∈ m.keys
  · simp only [hk, if_true]
    constructor
    · exact Or.inl
    · rintro (hx | rfl)
      · exact hx
      · exact hk
  · simp [hk]

theorem StringMap.get_set_self (m : StringMap) (k v : String) : (m.set k v).get k = v := by
  have hk : k ∈ (m.set k v).keys := (StringMap.mem_keys_set m k v k).2 (Or.inr rfl)
  unfold StringMap.get
  rw [if_pos hk]
  simp [StringMap.set]

theorem StringMap.get_set_other (m : StringMap) (k v x : String) (hx : x ≠ k) :
    (m.set k v).get x = m.get x := by
  unfold StringMap.get
  have hiff : x ∈ (m.set k v).keys ↔ x ∈ m.keys := by
    rw [StringMap.mem_keys_set]
    simp [hx]
  by_cases hm : x ∈ m.keys
  · rw [if_pos hm, if_pos (hiff.2 hm)]
    simp [StringMap.set, hx]
  · rw [if_neg hm, if_neg (fun hc => hm (hiff.1 hc))]

theorem mem_keys_patternsFrom (vs : List Response) (m : StringMap) (k : String) :
    k ∈ (patternsFrom m vs).keys ↔ k ∈ m.keys ∨ k ∈ vs.map (fun o => o.Country) := by
  induction vs generalizing m with
  | nil => simp [patternsFrom]
  | cons v vs ih =>
    have hstep : patternsFrom m (v :: vs) = patternsFrom (m.set v.Country (buildPattern v)) vs := rfl
    rw [hstep, ih, StringMap.mem_keys_set]
    simp only [List.map_cons, List.mem_cons]
    tauto

theorem get_patternsFrom_of_not_mem (vs : List Response) (m : StringMap) (k : String)
    (hk : k ∉ vs.map (fun o => o.Country)) : (patternsFrom m vs).get k = m.get k := by
  induction vs generalizing m with
  | nil => rfl
  | cons v vs ih =>
    have hstep : patternsFrom m (v :: vs) = patternsFrom (m.set v.Country (buildPattern v)) vs := rfl
    simp only [List.map_cons, List.mem_cons, not_or] at hk
    rw [hstep, ih _ hk.2, StringMap.get_set_other _ _ _ _ hk.1]

theorem get_patternsFrom_last (m : StringMap) (pre post : List Response) (a : Response)
    (hlast : a.Country ∉ post.map (fun o => o.Country)) :
    (patternsFrom m (pre ++ a :: post)).get a.Country = buildPattern a := by
  have hsplit : patternsFrom m (pre ++ a :: post) =
      patternsFrom ((patternsFrom m pre).set a.Country (buildPattern a)) post := by
    unfold patternsFrom
    rw [List.foldl_append]
    rfl
  rw [hsplit, get_patternsFrom_of_not_mem _ _ _ hlast, StringMap.get_set_self]

theorem get_patternsFrom_of_nodup (vs : List Response) (a : Response) (ha : a ∈ vs)
    (hnd : (vs.map (fun o => o.Country)).Nodup) :
    (patternsFrom StringMap.empty vs).get a.Country = buildPattern a := by
  obtain ⟨pre, post, rfl⟩ := List.append_of_mem ha
  apply get_patternsFrom_last
  rw [List.map_append, List.map_cons] at hnd
  have h2 := (List.nodup_append.1 hnd).2.1
  exact (List.nodup_cons.1 h2).1

theorem ResponsePatternsMatch_iff (h : Heap) (A B : List Addr) :
    ResponsePatternsMatch h A B = true ↔
      A.length = B.length ∧
      ∀ a ∈ A, (patternMap h B).get (h a).Country = (patternMap h A).get (h a).Country := by
  unfold ResponsePatternsMatch
  by_cases hlen : A.length = B.length
  · simp only [hlen, ne_eq, not_true_eq_false, if_false, true_and]
    simp only [List.all_eq_true, Bool.not_eq_true', decide_eq_false_iff_not, not_not]
    constructor
    · intro hall a ha
      have hk : (h a).Country ∈ (patternMap h A).keys := by
        rw [patternMap_eq_patternsFrom, mem_keys_patternsFrom]
        right
        exact List.mem_map.2 ⟨h a, List.mem_map.2 ⟨a, ha, rfl⟩, rfl⟩
      have := hall ((h a).Country, (patternMap h A).val (h a).Country)
        (List.mem_map.2 ⟨_, hk, rfl⟩)
      rw [this]
      simp [StringMap.get, hk]
    · intro hall e he
      obtain ⟨k, hk, rfl⟩ := List.mem_map.1 he
      have hk2 := hk
      rw [patternMap_eq_patternsFrom, mem_keys_patternsFrom] at hk2
      rcases hk2 with hk2 | hk2
      · simp [StringMap.empty] at hk2
      · obtain ⟨v, hv, rfl⟩ := List.mem_map.1 hk2
        obtain ⟨a, ha, rfl⟩ := List.mem_map.1 hv
        show (patternMap h B).get (h a).Country = (patternMap h A).val (h a).Country
        rw [hall a ha]
        simp [StringMap.get, hk]
  · simp [hlen]

/-! ## `buildPattern`: the rendering of integers and the last field -/

theorem digitChar_facts :
    ∀ d, d < 10 → (Nat.digitChar d ≠ ':' ∧ Nat.digitChar d ≠ '-' ∧
      (Nat.digitChar d).toNat - 48 = d) := by
  decide

theorem toDigitsCore_chars (fuel n : Nat) (ds : List Char)
    (hds : ∀ c ∈ ds, c ≠ ':' ∧ c ≠ '-') :
    ∀ c ∈ Nat.toDigitsCore 10 fuel n ds, c ≠ ':' ∧ c ≠ '-' := by
  induction fuel generalizing n ds with
  | zero => simpa [Nat.toDigitsCore] using hds
  | succ fuel ih =>
    have hd := digitChar_facts (n % 10) (Nat.mod_lt _ (by decide))
    have hds2 : ∀ c ∈ (n % 10).digitChar :: ds, c ≠ ':' ∧ c ≠ '-' := by
      intro c hc
      rcases List.mem_cons.1 hc with rfl | hc
      · exact ⟨hd.1, hd.2.1⟩
      · exact hds c hc
    unfold Nat.toDigitsCore
    by_cases hz : n / 10 = 0
    · simpa [hz] using hds2
    · simp only [hz, if_false]
      exact ih _ _ hds2

theorem toDigitsCore_value (fuel n : Nat) (ds : List Char) (hfuel : n < fuel) :
    decimalValue 0 (Nat.toDigitsCore 10 fuel n ds) = decimalValue n ds := by
  induction fuel generalizing n ds with
  | zero => omega
  | succ fuel ih =>
    have hd := (digitChar_facts (n % 10) (Nat.mod_lt _ (by decide))).2.2
    unfold Nat.toDigitsCore
    by_cases hz : n / 10 = 0
    · simp only [hz, if_true]
      have hn : n % 10 = n := by omega
      simp only [decimalValue, List.foldl_cons, Nat.mul_zero, Nat.zero_add]
      rw [hd, hn]
    · simp only [hz, if_false]
      rw [ih _ _ (by omega)]
      simp only [decimalValue, List.foldl_cons, hd]
      congr 1
      omega

theorem natToString_data (n : Nat) : (toString n).data = Nat.toDigits 10 n := rfl

theorem natToString_chars (n : Nat) : ∀ c ∈ (toString n).data, c ≠ ':' ∧ c ≠ '-' := by
  rw [natToString_data]
  exact toDigitsCore_chars _ _ _ (by simp)

theorem natToString_value (n : Nat) : decimalValue 0 (toString n).data = n := by
  rw [natToString_data]
  unfold Nat.toDigits
  rw [toDigitsCore_value _ _ _ (by omega)]
  rfl

theorem natToString_injective (a b : Nat) (hab : toString a = toString b) : a = b := by
  rw [← natToString_value a, ← natToString_value b, hab]

theorem fmtInt_ofNat (m : Nat) : fmtInt (Int.ofNat m) = toString m := rfl

theorem fmtInt_negSucc (m : Nat) : fmtInt (Int.negSucc m) = "-" ++ toString (m + 1) := rfl

theorem fmtInt_no_colon (n : Int) : ':' ∉ (fmtInt n).data := by
  cases n with
  | ofNat m =>
    rw [fmtInt_ofNat]
    intro hc
    exact (natToString_chars m _ hc).1 rfl
  | negSucc m =>
    rw [fmtInt_negSucc, String.data_append]
    intro hc
    rcases List.mem_append.1 hc with hc | hc
    · revert hc; decide
    · exact (natToString_chars _ _ hc).1 rfl

theorem fmtInt_injective (a b : Int) (hab : fmtInt a = fmtInt b) : a = b := by
  cases a with
  | ofNat m =>
    cases b with
    | ofNat k =>
      rw [fmtInt_ofNat, fmtInt_ofNat] at hab
      rw [natToString_injective m k hab]
    | negSucc k =>
      rw [fmtInt_ofNat, fmtInt_negSucc] at hab
      have hmem : '-' ∈ (toString m).data := by
        rw [hab, String.data_append]
        exact List.mem_append_left _ (by decide)
      exact absurd rfl (natToString_chars m _ hmem).2
  | negSucc m =>
    cases b with
    | ofNat k =>
      rw [fmtInt_ofNat, fmtInt_negSucc] at hab
      have hmem : '-' ∈ (toString k).data := by
        rw [← hab, String.data_append]
        exact List.mem_append_left _ (by decide)
      exact absurd rfl (natToString_chars k _ hmem).2
    | negSucc k =>
      rw [fmtInt_negSucc, fmtInt_negSucc] at hab
      have hdata := congrArg String.data hab
      rw [String.data_append, String.data_append] at hdata
      have hs : toString (m + 1) = toString (k + 1) :=
        String.ext_iff.2 (List.append_cancel_left hdata)
      have := natToString_injective _ _ hs
      have hmk : m = k := by omega
      rw [hmk]

theorem head_before_separator (c : Char) (u v s t : List Char) (hu : c ∉ u) (hv : c ∉ v)
    (heq : u ++ c :: s = v ++ c :: t) : u = v := by
  induction u generalizing v with
  | nil =>
    cases v with
    | nil => rfl
    | cons y v =>
      simp only [List.nil_append, List.cons_append, List.cons.injEq] at heq
      exact absurd (List.mem_cons.2 (Or.inl heq.1)) hv
  | cons x u ih =>
    cases v with
    | nil =>
      simp only [List.nil_append, List.cons_append, List.cons.injEq] at heq
      exact absurd (List.mem_cons.2 (Or.inl heq.1.symm)) hu
    | cons y v =>
      simp only [List.cons_append, List.cons.injEq] at heq
      rw [heq.1, ih v (fun hc => hu (List.mem_cons_of_mem _ hc))
        (fun hc => hv (List.mem_cons_of_mem _ hc)) heq.2]

theorem tail_after_last_separator (c : Char) (x1 x2 d1 d2 : List Char) (h1 : c ∉ d1)
    (h2 : c ∉ d2) (heq : x1 ++ c :: d1 = x2 ++ c :: d2) : d1 = d2 := by
  have hrev := congrArg List.reverse heq
  simp only [List.reverse_append, List.reverse_cons, List.append_assoc, List.singleton_append]
    at hrev
  have := head_before_separator c d1.reverse d2.reverse x1.reverse x2.reverse
    (by simpa using h1) (by simpa using h2) hrev
  exact List.reverse_injective this

theorem buildPattern_ne_empty (v : Response) : buildPattern v ≠ "" := by
  intro hcontra
  have hlen := congrArg String.length hcontra
  unfold buildPattern at hlen
  by_cases he : v.Error = ""
  · simp [he] at hlen
    have : (":" : String).length = 1 := by decide
    omega
  · simp [he] at hlen
    have : ("error:" : String).length = 6 := by decide
    omega

theorem buildPattern_contentLength (a b : Response) (ha : a.Error = "") (hb : b.Error = "")
    (hpat : buildPattern a = buildPattern b) : a.ContentLength = b.ContentLength := by
  unfold buildPattern at hpat
  simp only [ha, hb, ne_eq, not_true_eq_false, if_false] at hpat
  have hdata := congrArg String.data hpat
  simp only [String.data_append] at hdata
  simp only [List.append_assoc, List.singleton_append] at hdata
  have hd := tail_after_last_separator ':'
    ((fmtInt a.StatusCode).data ++ ':' :: a.Title.data)
    ((fmtInt b.StatusCode).data ++ ':' :: b.Title.data) _ _
    (fmtInt_no_colon _) (fmtInt_no_colon _) (by simpa [List.append_assoc] using hdata)
  exact fmtInt_injective _ _ (String.ext_iff.2 hd)

/-! ## C3, C4: `ResponsePatternsMatch` against the specification's condition -/

theorem ResponsePatternsMatch_iff_spec_of_nodup (h : Heap) (A B : List Addr)
    (hA : (A.map (fun p => (h p).Country)).Nodup)
    (hB : (B.map (fun p => (h p).Country)).Nodup) :
    ResponsePatternsMatch h A B = true ↔ specPatternsMatch (A.map h) (B.map h) := by
  have hA2 : ((A.map h).map (fun o => o.Country)).Nodup := by
    rw [List.map_map]; exact hA
  have hB2 : ((B.map h).map (fun o => o.Country)).Nodup := by
    rw [List.map_map]; exact hB
  rw [ResponsePatternsMatch_iff, patternMap_eq_patternsFrom, patternMap_eq_patternsFrom]
  unfold specPatternsMatch
  constructor
  · rintro ⟨hlen, hall⟩
    have hsub : (A.map h).map (fun o => o.Country) ⊆ (B.map h).map (fun o => o.Country) := by
      intro k hk
      obtain ⟨v, hv, rfl⟩ := List.mem_map.1 hk
      obtain ⟨a, ha, rfl⟩ := List.mem_map.1 hv
      have hget := hall a ha
      rw [get_patternsFrom_of_nodup _ _ hv hA2] at hget
      by_contra hnot
      have hkeys : (h a).Country ∉ (patternsFrom StringMap.empty (B.map h)).keys := by
        rw [mem_keys_patternsFrom]
        simp only [StringMap.empty, List.not_mem_nil, false_or]
        exact hnot
      have hempty : (patternsFrom StringMap.empty (B.map h)).get (h a).Country = "" := by
        unfold StringMap.get
        rw [if_neg hkeys]
      rw [hempty] at hget
      exact buildPattern_ne_empty _ hget.symm
    have hperm := (List.subperm_of_subset hA2 hsub).perm_of_length_le (by
      simp only [List.length_map]; omega)
    refine ⟨fun k => hperm.mem_iff, ?_⟩
    intro a ha b hb hab
    obtain ⟨p, hp, rfl⟩ := List.mem_map.1 ha
    have hget := hall p hp
    rw [get_patternsFrom_of_nodup _ _ ha hA2, hab, get_patternsFrom_of_nodup _ _ hb hB2] at hget
    exact hget.symm
  · rintro ⟨hset, hpat⟩
    have hperm := (List.perm_ext_iff_of_nodup hA2 hB2).2 hset
    refine ⟨by simpa using hperm.length_eq, ?_⟩
    intro a ha
    have hav : h a ∈ A.map h := List.mem_map.2 ⟨a, ha, rfl⟩
    have hk : (h a).Country ∈ (B.map h).map (fun o => o.Country) :=
      (hset _).1 (List.mem_map.2 ⟨h a, hav, rfl⟩)
    obtain ⟨b, hb, hbk⟩ := List.mem_map.1 hk
    rw [get_patternsFrom_of_nodup _ _ hav hA2, ← hbk, get_patternsFrom_of_nodup _ _ hb hB2]
    exact (hpat _ hav _ hb hbk.symm).symm

theorem ResponsePatternsMatch_symm_of_same_countries (h : Heap) (A B : List Addr)
    (hcountry : A.map (fun p => (h p).Country) = B.map (fun p => (h p).Country)) :
    ResponsePatternsMatch h A B = ResponsePatternsMatch h B A := by
  have hlen : A.length = B.length := by simpa using congrArg List.length hcountry
  have half : ∀ X Y : List Addr,
      X.map (fun p => (h p).Country) = Y.map (fun p => (h p).Country) →
      ResponsePatternsMatch h X Y = true → ResponsePatternsMatch h Y X = true := by
    intro X Y hXY hm
    rw [ResponsePatternsMatch_iff] at hm ⊢
    refine ⟨hm.1.symm, ?_⟩
    intro b hb
    have hmem : (h b).Country ∈ X.map (fun p => (h p).Country) := by
      rw [hXY]; exact List.mem_map.2 ⟨b, hb, rfl⟩
    obtain ⟨a, ha, hab⟩ := List.mem_map.1 hmem
    have := hm.2 a ha
    rw [hab] at this
    exact this.symm
  cases hAB : ResponsePatternsMatch h A B with
  | true => exact (half A B hcountry hAB).symm
  | false =>
    cases hBA : ResponsePatternsMatch h B A with
    | false => rfl
    | true => rw [half B A hcountry.symm hBA] at hAB; exact absurd hAB (by decide)

/-- C3, as stated, fails: for the outcome lists `A = [us, us]` and
`B = [us, de]` (equal lengths, `A` with a duplicate country code),
`ResponsePatternsMatch A B` is `true` and `ResponsePatternsMatch B A` is
`false`. -/
theorem C3_counterexample :
    ResponsePatternsMatch heapCountries [0, 1] [2, 3] = true ∧
    ResponsePatternsMatch heapCountries [2, 3] [0, 1] = false ∧
    ResponsePatternsMatch heapCountries [0, 1] [2, 3] ≠
      ResponsePatternsMatch heapCountries [2, 3] [0, 1] := by
  decide

/-- C3 (amended): `ResponsePatternsMatch` is symmetric on every two outcome
lists `A` and `B` that have the same country at every position (two runs over
the same country list, duplicate country codes allowed):
`ResponsePatternsMatch A B = ResponsePatternsMatch B A`. -/
theorem C3_symmetric_on_same_countries (h : Heap) (A B : List Addr)
    (hcountry : A.map (fun p => (h p).Country) = B.map (fun p => (h p).Country)) :
    ResponsePatternsMatch h A B = ResponsePatternsMatch h B A :=
  ResponsePatternsMatch_symm_of_same_countries h A B hcountry

/-- C3 (amended) applied to two runs over the country list `[us, us, de]`
whose first `us` outcomes have content lengths 1000 and 1001. -/
theorem C3_witness :
    ([0, 5, 3].map (fun p => (heapCountries p).Country) =
      [4, 6, 3].map (fun p => (heapCountries p).Country)) ∧
    ResponsePatternsMatch heapCountries [0, 5, 3] [4, 6, 3] =
      ResponsePatternsMatch heapCountries [4, 6, 3] [0, 5, 3] :=
  ⟨by decide, C3_symmetric_on_same_countries heapCountries [0, 5, 3] [4, 6, 3] (by decide)⟩

/-- C4, as stated, fails in both directions: `[us]` against `[us, us]` has the
same set of countries and the same pattern for every country, and
`ResponsePatternsMatch` is `false`; `[us, us]` against `[us, de]` does not have
the same set of countries, and `ResponsePatternsMatch` is `true`. -/
theorem C4_counterexample :
    (ResponsePatternsMatch heapCountries [0] [1, 2] = false ∧
      specPatternsMatch ([0].map heapCountries) ([1, 2].map heapCountries)) ∧
    (ResponsePatternsMatch heapCountries [0, 1] [2, 3] = true ∧
      ¬ specPatternsMatch ([0, 1].map heapCountries) ([2, 3].map heapCountries)) := by
  refine ⟨⟨by decide, ?_⟩, ⟨by decide, ?_⟩⟩
  · unfold specPatternsMatch
    constructor
    · intro country
      simp [heapCountries]
    · intro a ha b hb _
      simp only [List.map_cons, List.map_nil, List.mem_cons, List.mem_singleton,
        List.not_mem_nil, or_false] at ha hb
      rcases hb with rfl | rfl <;> rw [ha] <;> decide
  · unfold specPatternsMatch
    rintro ⟨hset, -⟩
    have := (hset "de").2 (by decide)
    revert this
    decide

/-- C4 (amended): for every two outcome lists `A` and `B` in each of which no
country code occurs twice, `ResponsePatternsMatch A B` is `true` if and only if
the set of country codes of `A` equals that of `B` and, for every country, the
pattern of its outcome in `A` is identical to the pattern of its outcome in
`B`. -/
theorem C4_patternsMatch_iff_spec (h : Heap) (A B : List Addr)
    (hA : (A.map (fun p => (h p).Country)).Nodup)
    (hB : (B.map (fun p => (h p).Country)).Nodup) :
    ResponsePatternsMatch h A B = true ↔ specPatternsMatch (A.map h) (B.map h) :=
  ResponsePatternsMatch_iff_spec_of_nodup h A B hA hB

/-- C4 (amended) applied to two runs over the countries `us`, `de`. -/
theorem C4_witness :
    ((([0, 3] : List Addr).map (fun p => (heapCountries p).Country)).Nodup ∧
      (([4, 3] : List Addr).map (fun p => (heapCountries p).Country)).Nodup) ∧
    (ResponsePatternsMatch heapCountries [0, 3] [4, 3] = true ↔
      specPatternsMatch ([0, 3].map heapCountries) ([4, 3].map heapCountries)) :=
  ⟨by decide, C4_patternsMatch_iff_spec heapCountries [0, 3] [4, 3] (by decide) (by decide)⟩

/-! ## C5: pattern matching is exact on content length -/

theorem patternsFrom_mismatch (preA postA preB postB : List Response) (a b : Response)
    (hpre : preA.length = preB.length)
    (hcountry : (preA ++ a :: postA).map (fun o => o.Country) =
      (preB ++ b :: postB).map (fun o => o.Country))
    (hlast : a.Country ∉ postA.map (fun o => o.Country))
    (ha : a.Error = "") (hb : b.Error = "") (hne : a.ContentLength ≠ b.ContentLength) :
    (patternsFrom StringMap.empty (preB ++ b :: postB)).get a.Country ≠
      (patternsFrom StringMap.empty (preA ++ a :: postA)).get a.Country := by
  rw [List.map_append, List.map_append, List.map_cons, List.map_cons] at hcountry
  have hinj := List.append_inj hcountry (by simpa using hpre)
  have hab : a.Country = b.Country := (List.cons.inj hinj.2).1
  have hpost : postA.map (fun o => o.Country) = postB.map (fun o => o.Country) :=
    (List.cons.inj hinj.2).2
  rw [get_patternsFrom_last _ _ _ _ hlast]
  rw [hab, get_patternsFrom_last _ _ _ _ (by rw [← hab, ← hpost]; exact hlast)]
  intro hpat
  exact hne (buildPattern_contentLength a b ha hb hpat.symm)

/-- C5, as stated, fails: the lists `[us, us]` of two runs agree in country at
every position, at position 0 both outcomes are error-free with content
lengths 1000 and 1001, and `ResponsePatternsMatch` is `true`: the later
outcome of the same country replaces the earlier one in the pattern map. -/
theorem C5_counterexample :
    ([0, 5].map (fun p => (heapCountries p).Country) =
      [4, 6].map (fun p => (heapCountries p).Country)) ∧
    (heapCountries 0).Error = "" ∧ (heapCountries 4).Error = "" ∧
    (heapCountries 0).ContentLength ≠ (heapCountries 4).ContentLength ∧
    ResponsePatternsMatch heapCountries [0, 5] [4, 6] = true := by
  decide

/-- C5 (amended): for every two outcome lists `A` and `B` with the same country
at every position, if at a position `i` that is the last occurrence of its
country code in the list (every position, when the country codes are distinct)
both `A[i]` and `B[i]` have an empty error and their content lengths differ,
then `ResponsePatternsMatch A B` is `false`, however small the difference. -/
theorem C5_exact_on_content_length (h : Heap) (A B : List Addr) (i : Nat)
    (hiA : i < A.length) (hiB : i < B.length)
    (hcountry : A.map (fun p => (h p).Country) = B.map (fun p => (h p).Country))
    (hlast : ∀ j (hj : j < A.length), i < j → (h A[j]).Country ≠ (h A[i]).Country)
    (heA : (h A[i]).Error = "") (heB : (h B[i]).Error = "")
    (hne : (h A[i]).ContentLength ≠ (h B[i]).ContentLength) :
    ResponsePatternsMatch h A B = false := by
  have hsA : A = A.take i ++ A[i] :: A.drop (i + 1) := by
    rw [List.getElem_cons_drop, List.take_append_drop]
  have hsB : B = B.take i ++ B[i] :: B.drop (i + 1) := by
    rw [List.getElem_cons_drop, List.take_append_drop]
  have hlen : A.length = B.length := by
    simpa using congrArg List.length hcountry
  have hnotin : (h A[i]).Country ∉ ((A.drop (i + 1)).map h).map (fun o => o.Country) := by
    intro hmem
    obtain ⟨v, hv, hvc⟩ := List.mem_map.1 hmem
    obtain ⟨p, hp, rfl⟩ := List.mem_map.1 hv
    obtain ⟨k, hk, rfl⟩ := List.mem_iff_getElem.1 hp
    rw [List.getElem_drop] at hvc
    have hk2 : i + 1 + k < A.length := by
      rw [List.length_drop] at hk; omega
    exact hlast (i + 1 + k) hk2 (by omega) hvc
  have hmis := patternsFrom_mismatch ((A.take i).map h) ((A.drop (i + 1)).map h)
    ((B.take i).map h) ((B.drop (i + 1)).map h) (h A[i]) (h B[i])
    (by simp only [List.length_map, List.length_take]; omega)
    (by
      rw [← List.map_cons h, ← List.map_cons h, ← List.map_append, ← List.map_append,
        ← hsA, ← hsB, List.map_map, List.map_map]
      exact hcountry)
    hnotin heA heB hne
  rw [← List.map_cons h, ← List.map_cons h, ← List.map_append, ← List.map_append,
    ← hsA, ← hsB, ← patternMap_eq_patternsFrom, ← patternMap_eq_patternsFrom] at hmis
  cases hr : ResponsePatternsMatch h A B with
  | false => rfl
  | true =>
    have := ((ResponsePatternsMatch_iff h A B).1 hr).2 A[i] (List.getElem_mem _)
    exact absurd this hmis

/-- C5 (amended) applied to two runs over `us`, `de` whose `us` outcomes have
content lengths 1000 and 1001: a difference that `CompareResponses` tolerates. -/
theorem C5_witness :
    ([0, 3].map (fun p => (heapCountries p).Country) =
      [4, 3].map (fun p => (heapCountries p).Country)) ∧
    (heapCountries 0).ContentLength = 1000 ∧ (heapCountries 4).ContentLength = 1001 ∧
    ResponsePatternsMatch heapCountries [0, 3] [4, 3] = false ∧
    CompareResponses heapCountries [0, 4] = false :=
  ⟨by decide, by decide, by decide,
   C5_exact_on_content_length heapCountries [0, 3] [4, 3] 0 (by decide) (by decide)
     (by decide) (by decide) (by decide) (by decide) (by decide),
   by decide⟩

/-! ## C9: two runs with the same outcomes -/

/-- C9: for every two outcome lists `R1` and `R2` of the same length that
agree position by position in every field (country, error, status code, title,
content length), `CompareResponses R1 = CompareResponses R2` and
`ResponsePatternsMatch R1 R2 = true`; in particular
`ResponsePatternsMatch R R = true` for every list `R`, duplicate country codes
included. -/
theorem C9_idempotence (h : Heap) (R1 R2 : List Addr) (hmap : R1.map h = R2.map h) :
    CompareResponses h R1 = CompareResponses h R2 ∧
    ResponsePatternsMatch h R1 R2 = true ∧
    ResponsePatternsMatch h R1 R1 = true := by
  have key : ∀ X Y : List Addr, X.map h = Y.map h → ResponsePatternsMatch h X Y = true := by
    intro X Y hXY
    rw [ResponsePatternsMatch_iff]
    refine ⟨by simpa using congrArg List.length hXY, ?_⟩
    intro a _
    rw [patternMap_eq_patternsFrom, patternMap_eq_patternsFrom, hXY]
  refine ⟨?_, key R1 R2 hmap, key R1 R1 rfl⟩
  rw [CompareResponses_eq_values, CompareResponses_eq_values, hmap]

/-- C9 applied to two runs `[us, us, de]` with the same outcomes. -/
theorem C9_witness :
    ([0, 1, 3].map heapCountries = [1, 2, 3].map heapCountries) ∧
    (CompareResponses heapCountries [0, 1, 3] = CompareResponses heapCountries [1, 2, 3] ∧
      ResponsePatternsMatch heapCountries [0, 1, 3] [1, 2, 3] = true ∧
      ResponsePatternsMatch heapCountries [0, 1, 3] [0, 1, 3] = true) :=
  ⟨by decide, C9_idempotence heapCountries [0, 1, 3] [1, 2, 3] (by decide)⟩

/-! ## C8: the fan-out checker -/

theorem Check_Country (client : Transport) (extractTitle : String → Except String String)
    (url : String) (proxy : Proxy) (country : String) :
    (Check client extractTitle url proxy country).Country = country := by
  unfold Check
  simp only [Proxy.URL]
  cases client url _ with
  | error err => rfl
  | ok response =>
    simp only []
    cases extractTitle response.Body <;> rfl

theorem launchChecks_spec (net : Nat → Transport) (extractTitle : String → Except String String)
    (url : String) (proxy : Proxy) (countries : List String) (index : Nat) (m : Mem) :
    (launchChecks net extractTitle url proxy index countries m).1 =
        List.range' m.next countries.length ∧
    (launchChecks net extractTitle url proxy index countries m).2.next =
        m.next + countries.length ∧
    (∀ a, a < m.next →
      (launchChecks net extractTitle url proxy index countries m).2.heap a = m.heap a) ∧
    (∀ j, ∀ hj : j < countries.length,
      (launchChecks net extractTitle url proxy index countries m).2.heap (m.next + j) =
        Check (net (index + j)) extractTitle url proxy countries[j]) := by
  induction countries generalizing index m with
  | nil =>
    refine ⟨rfl, rfl, fun _ _ => rfl, ?_⟩
    intro j hj
    simp at hj
  | cons c cs ih =>
    obtain ⟨ih1, ih2, ih3, ih4⟩ := ih (index + 1)
      ⟨fun a => if a = m.next then Check (net index) extractTitle url proxy c else m.heap a,
        m.next + 1⟩
    have hstep : launchChecks net extractTitle url proxy index (c :: cs) m =
        (m.next :: (launchChecks net extractTitle url proxy (index + 1) cs
            ⟨fun a => if a = m.next then Check (net index) extractTitle url proxy c
              else m.heap a, m.next + 1⟩).1,
          (launchChecks net extractTitle url proxy (index + 1) cs
            ⟨fun a => if a = m.next then Check (net index) extractTitle url proxy c
              else m.heap a, m.next + 1⟩).2) := rfl
    rw [hstep]
    simp only [List.length_cons] at ih1 ih2 ih3 ih4 ⊢
    refine ⟨?_, ?_, ?_, ?_⟩
    · rw [ih1, List.range'_succ]
    · rw [ih2]; omega
    · intro a ha
      rw [ih3 a (by omega)]
      simp [Nat.ne_of_lt ha]
    · intro j hj
      cases j with
      | zero =>
        simp only [Nat.add_zero, List.getElem_cons_zero]
        rw [ih3 m.next (by omega)]
        simp
      | succ j =>
        have := ih4 j (by omega)
        have e1 : m.next + (j + 1) = m.next + 1 + j := by omega
        have e2 : index + (j + 1) = index + 1 + j := by omega
        rw [e1, e2, this]
        rfl

/-- C8: for every network behaviour, memory, URL, proxy and country list
(duplicates included), `checkURL` returns a result with exactly
`len(countries)` outcomes; the outcome at position `i` is the one `Check`
produced for `countries[i]` with the fetch of slot `i`, so its country field is
`countries[i]`; and `HasDiff` is `CompareResponses` of those outcomes. -/
theorem C8_checkURL_positional (net : Nat → Transport)
    (extractTitle : String → Except String String) (m : Mem) (url : String) (proxy : Proxy)
    (countries : List String) :
    (checkURL net extractTitle m url proxy countries).1.Responses.length = countries.length ∧
    (∀ i : Nat,
      ((checkURL net extractTitle m url proxy countries).1.Responses[i]?).map
          (checkURL net extractTitle m url proxy countries).2.heap =
        (countries[i]?).map (fun c => Check (net i) extractTitle url proxy c)) ∧
    (∀ i : Nat,
      ((checkURL net extractTitle m url proxy countries).1.Responses[i]?).map
          (fun p => ((checkURL net extractTitle m url proxy countries).2.heap p).Country) =
        countries[i]?) ∧
    (checkURL net extractTitle m url proxy countries).1.HasDiff =
      CompareResponses (checkURL net extractTitle m url proxy countries).2.heap
        (checkURL net extractTitle m url proxy countries).1.Responses := by
  obtain ⟨h1, -, -, h4⟩ := launchChecks_spec net extractTitle url proxy countries 0 m
  have hR : (checkURL net extractTitle m url proxy countries).1.Responses =
      (launchChecks net extractTitle url proxy 0 countries m).1 := rfl
  have hH : (checkURL net extractTitle m url proxy countries).2 =
      (launchChecks net extractTitle url proxy 0 countries m).2 := rfl
  have hvals : ∀ i : Nat,
      ((checkURL net extractTitle m url proxy countries).1.Responses[i]?).map
          (checkURL net extractTitle m url proxy countries).2.heap =
        (countries[i]?).map (fun c => Check (net i) extractTitle url proxy c) := by
    intro i
    rw [hR, hH, h1]
    by_cases hi : i < countries.length
    · rw [List.getElem?_eq_getElem (by simpa using hi), List.getElem?_eq_getElem hi,
        List.getElem_range']
      simp only [Option.map_some', Nat.one_mul]
      have := h4 i hi
      rw [Nat.zero_add] at this
      rw [this]
    · rw [List.getElem?_eq_none (by simpa using hi), List.getElem?_eq_none (by omega)]
      rfl
  refine ⟨?_, hvals, ?_, rfl⟩
  · rw [hR, h1, List.length_range']
  · intro i
    have := congrArg (Option.map (fun r : Response => r.Country)) (hvals i)
    rw [Option.map_map, Option.map_map] at this
    rw [show (fun p => ((checkURL net extractTitle m url proxy countries).2.heap p).Country) =
      (fun r : Response => r.Country) ∘ (checkURL net extractTitle m url proxy countries).2.heap
      from rfl, this]
    cases countries[i]? with
    | none => rfl
    | some c => simp [Check_Country]

/-! ## C7: the worker's decision for one URL -/

theorem processURL_eq_workerBody (verify : Bool) (net1 net2 : Nat → Transport)
    (extractTitle : String → Except String String) (m : Mem) (url : String) (proxy : Proxy)
    (countries : List String) :
    (processURL verify net1 net2 extractTitle m url proxy countries).1 =
      workerBody
        (checkURL net2 extractTitle (checkURL net1 extractTitle m url proxy countries).2
          url proxy countries).2.heap
        verify
        (checkURL net1 extractTitle m url proxy countries).1
        (checkURL net2 extractTitle (checkURL net1 extractTitle m url proxy countries).2
          url proxy countries).1 := by
  unfold processURL workerBody
  simp only [apply_ite Prod.fst]

/-- C7: given the result of the first check and the result of the verification
check, one pass of the worker sends a non-nil finding to the collector if and
only if the first result has a difference and (verification is disabled, or
the verification result has a difference and `ResponsePatternsMatch` of the
two outcome lists is `true`); in that case it sends exactly one value, the
first result; when verification is enabled and shows no difference, the
collector accumulates nothing; in every case the collector accumulates the
first result once or nothing. -/
theorem C7_worker_decision (h : Heap) (verify : Bool) (result verifyResult : Result) :
    ((∃ finding, some finding ∈ (workerBody h verify result verifyResult).sent) ↔
      (result.HasDiff = true ∧ (verify = false ∨
        (verifyResult.HasDiff = true ∧
          ResponsePatternsMatch h result.Responses verifyResult.Responses = true)))) ∧
    ((result.HasDiff = true ∧ (verify = false ∨
        (verifyResult.HasDiff = true ∧
          ResponsePatternsMatch h result.Responses verifyResult.Responses = true))) →
      (workerBody h verify result verifyResult).sent = [some result]) ∧
    (verify = true → verifyResult.HasDiff = false →
      collector [] (workerBody h verify result verifyResult).sent = []) ∧
    (∀ acc : List Result,
      collector acc (workerBody h verify result verifyResult).sent =
        if result.HasDiff = true ∧ (verify = false ∨
          (verifyResult.HasDiff = true ∧
            ResponsePatternsMatch h result.Responses verifyResult.Responses = true))
        then acc ++ [result] else acc) := by
  unfold workerBody
  generalize ResponsePatternsMatch h result.Responses verifyResult.Responses = pm
  cases hd : result.HasDiff <;> cases verify <;> cases hv : verifyResult.HasDiff <;>
    cases pm <;> simp [collector]

/-- C7 applied to a verification run that repeats the first run (the first
result is sent) and to one without a difference (nothing is accumulated). -/
theorem C7_witness :
    (workerBody heapCountries true firstRun sameRun).sent = [some firstRun] ∧
    collector [] (workerBody heapCountries true firstRun quietRun).sent = [] :=
  ⟨(C7_worker_decision heapCountries true firstRun sameRun).2.1 (by decide),
   (C7_worker_decision heapCountries true firstRun quietRun).2.2.1 rfl rfl⟩

end HttpGlobe
